import Mathlib

/-!
Verification development for the json-api document model and its two
resolution engines (deflate via `Executor`, inflate via the pull-based
`DocGraph` cursor).  The definitions below are shallow embeddings of the
Rust source files (`src/value/fields/key.rs`, `src/value/convert.rs`,
`src/doc/mod.rs`, `src/doc/ident.rs`, `src/doc/de.rs`,
`src/view/executor.rs`, `src/resource.rs`).  Container types whose source
files are absent from the crate snapshot (`Map`, `Set`, `Path`, `Query`,
`Object`, `Relationship`, `Link`, `JsonApi`, error objects) are modelled
from the specification, as noted on each definition.
-/

set_option maxRecDepth 4096
set_option linter.dupNamespace false
set_option linter.unusedVariables false

namespace JsonApi

/-- Errors produced by `Key` parsing.  The Rust `ParseKeyError(String, String)`
carries the offending source text and a message; the constructors here record
the same distinctions (blank input, reserved character, leading separator,
trailing separator). -/
inductive ParseKeyError where
  | blank : ParseKeyError
  | reserved (c : Char) : ParseKeyError
  | cannotStart (c : Char) : ParseKeyError
  | cannotEnd (c : Char) : ParseKeyError
deriving DecidableEq, Repr

/-- A member name (`Key(String)` in `src/value/fields/key.rs`). -/
structure Key where
  str : String
deriving DecidableEq, Repr

/-- `Key::from_raw` — wraps a string without validation. -/
def Key.fromRaw (value : String) : Key := ⟨value⟩

/-- The reserved character set rejected by `Key::from_str`
(`src/value/fields/key.rs` lines 107-118): U+002E, U+002F, U+0040, U+0060
and the ranges 0000-001F, 0021-0029, 002A-002C, 003A-003F, 005B-005E,
007B-007F. -/
def isReservedChar (c : Char) : Bool :=
  let n := c.toNat
  n = 0x2e || n = 0x2f || n = 0x40 || n = 0x60 ||
  n ≤ 0x1f || (0x21 ≤ n && n ≤ 0x29) || (0x2a ≤ n && n ≤ 0x2c) ||
  (0x3a ≤ n && n ≤ 0x3f) || (0x5b ≤ n && n ≤ 0x5e) || (0x7b ≤ n && n ≤ 0x7f)

/-- The separator characters `'_' | '-' | ' '` of `Key::from_str`. -/
def isSeparatorChar (c : Char) : Bool :=
  c = '_' || c = '-' || c = ' '

/-- The guard `'A'..='Z'` of `Key::from_str`. -/
def isUpperAZ (c : Char) : Bool :=
  'A' ≤ c && c ≤ 'Z'

/-- `as_lowercase` from `src/value/fields/key.rs`: add 32 to the code point. -/
def as_lowercase (c : Char) : Char :=
  Char.ofNat (c.toNat + 32)

/-- The character-consuming loop of `Key::from_str`.  `src` is the remaining
input (the peekable iterator); `dest` is the accumulator, kept in reverse
order so that `push` is cons and `ends_with('-')` is a head test. -/
def fromStrAux : List Char → List Char → Except ParseKeyError Key
  | [], dest => .ok (Key.fromRaw (String.mk dest.reverse))
  | c :: rest, dest =>
    if isReservedChar c then
      .error (.reserved c)
    else if isSeparatorChar c && dest.isEmpty then
      .error (.cannotStart c)
    else if isSeparatorChar c then
      match rest with
      | [] => .error (.cannotEnd c)
      | c2 :: _ =>
        if isSeparatorChar c2 || isUpperAZ c2 then fromStrAux rest dest
        else fromStrAux rest ('-' :: dest)
    else if isUpperAZ c then
      if dest.head? = some '-' then fromStrAux rest (as_lowercase c :: dest)
      else fromStrAux rest (as_lowercase c :: '-' :: dest)
    else
      fromStrAux rest (c :: dest)

/-- `impl FromStr for Key` (`src/value/fields/key.rs` lines 92-148). -/
def key_from_str (source : String) : Except ParseKeyError Key :=
  if source.isEmpty then .error .blank
  else fromStrAux source.toList []

/-- A parse attempt on a string that contains a reserved character never
succeeds: the loop either hits the reserved character (erroring there) or
errors earlier; it never consumes a reserved character silently. -/
theorem fromStrAux_reserved_isError (cs : List Char) (dest : List Char)
    (h : cs.any isReservedChar = true) : (fromStrAux cs dest).isOk = false := by
  induction cs generalizing dest with
  | nil => simp at h
  | cons c rest ih =>
    simp only [List.any_cons, Bool.or_eq_true] at h
    by_cases hres : isReservedChar c
    · simp [fromStrAux, hres, Except.isOk, Except.toBool]
    · have hrest : rest.any isReservedChar = true := by
        rcases h with h | h
        · exact absurd h hres
        · exact h
      simp only [fromStrAux, hres]
      by_cases hsep : isSeparatorChar c
      · by_cases hemp : dest.isEmpty
        · simp [hsep, hemp, Except.isOk, Except.toBool]
        · simp only [hsep, hemp, Bool.and_false, Bool.false_eq_true, if_false, if_true,
            Bool.and_true]
          cases rest with
          | nil => simp at hrest
          | cons c2 rest2 =>
            by_cases hskip : isSeparatorChar c2 || isUpperAZ c2
            · simp only [hskip, if_true]
              exact ih _ hrest
            · simp only [hskip, if_false]
              exact ih _ hrest
      · simp only [hsep, Bool.false_and, Bool.false_eq_true, if_false]
        by_cases hup : isUpperAZ c
        · by_cases hdash : dest.head? = some '-'
          · simp only [hup, hdash, if_true]
            exact ih _ hrest
          · simp only [hup, hdash, if_true, if_false]
            exact ih _ hrest
        · simp only [hup, if_false]
          exact ih _ hrest

/-- C5: Key construction normalizes camelCase, space-separated and
underscore-separated input to kebab-case and rejects invalid names:
`"someFieldName"`, `"some_field_name"` (and `"some field name"`) all parse to
`"some-field-name"`, while `""`, `"-abc"` and `"abc-"` are rejected with a
parse error, as is any string containing a reserved punctuation or control
character. -/
theorem C5_key_normalization :
    key_from_str "someFieldName" = Except.ok (Key.fromRaw "some-field-name") ∧
    key_from_str "some_field_name" = Except.ok (Key.fromRaw "some-field-name") ∧
    key_from_str "some field name" = Except.ok (Key.fromRaw "some-field-name") ∧
    (key_from_str "").isOk = false ∧
    (key_from_str "-abc").isOk = false ∧
    (key_from_str "abc-").isOk = false ∧
    (∀ s : String, s.toList.any isReservedChar = true →
      (key_from_str s).isOk = false) := by
  refine ⟨by rfl, by rfl, by rfl, by rfl, by rfl, by rfl, ?_⟩
  intro s h
  unfold key_from_str
  by_cases hemp : s.isEmpty
  · simp [hemp, Except.isOk, Except.toBool]
  · simp only [hemp, if_false]
    exact fromStrAux_reserved_isError s.toList [] h

/-- Witness for C5: a string containing the reserved character `.` is
rejected. -/
theorem C5_key_normalization_witness :
    ("a.b".toList.any isReservedChar = true) ∧ (key_from_str "a.b").isOk = false :=
  ⟨by decide, C5_key_normalization.2.2.2.2.2.2 "a.b" (by decide)⟩

/-- A JSON API value (`Value` in `src/value/mod.rs`): null, array, bool,
number, object (ordered map of `Key` to `Value`, modelled as an association
list preserving insertion order, per the spec for the absent
`value/collections` module), or string.  JSON numbers are modelled as `Int`;
none of the verified claims inspects numeric contents. -/
inductive Value where
  | null : Value
  | arr (items : List Value) : Value
  | bool (b : Bool) : Value
  | num (n : Int) : Value
  | obj (members : List (Key × Value)) : Value
  | str (s : String) : Value

/-- The external generic JSON value (`serde_json::Value`).  Modelled from the
spec: the generic structured-value representation is external; objects are
ordered string-keyed maps. -/
inductive JVal where
  | null : JVal
  | arr (items : List JVal) : JVal
  | bool (b : Bool) : JVal
  | num (n : Int) : JVal
  | obj (members : List (String × JVal)) : JVal
  | str (s : String) : JVal

mutual

/-- `to_json` from `src/value/convert.rs` lines 46-62: structural conversion,
object keys become plain strings. -/
def to_json : Value → JVal
  | .null => .null
  | .arr inner => .arr (toJsonList inner)
  | .bool inner => .bool inner
  | .num inner => .num inner
  | .obj inner => .obj (toJsonObjMembers inner)
  | .str inner => .str inner

def toJsonList : List Value → List JVal
  | [] => []
  | v :: rest => to_json v :: toJsonList rest

def toJsonObjMembers : List (Key × Value) → List (String × JVal)
  | [] => []
  | (k, v) :: rest => (k.str, to_json v) :: toJsonObjMembers rest

end

mutual

/-- `from_json` from `src/value/convert.rs` lines 64-75: structural
conversion; every object key is re-parsed with `Key::from_str` and the first
failure aborts the whole conversion. -/
def from_json : JVal → Except ParseKeyError Value
  | .null => .ok .null
  | .arr data =>
    match fromJsonList data with
    | .ok items => .ok (.arr items)
    | .error e => .error e
  | .bool data => .ok (.bool data)
  | .num data => .ok (.num data)
  | .obj data =>
    match fromJsonObjMembers data with
    | .ok members => .ok (.obj members)
    | .error e => .error e
  | .str data => .ok (.str data)

def fromJsonList : List JVal → Except ParseKeyError (List Value)
  | [] => .ok []
  | j :: rest =>
    match from_json j with
    | .error e => .error e
    | .ok v =>
      match fromJsonList rest with
      | .error e => .error e
      | .ok vs => .ok (v :: vs)

def fromJsonObjMembers : List (String × JVal) → Except ParseKeyError (List (Key × Value))
  | [] => .ok []
  | (k, j) :: rest =>
    match key_from_str k with
    | .error e => .error e
    | .ok key =>
      match from_json j with
      | .error e => .error e
      | .ok v =>
        match fromJsonObjMembers rest with
        | .error e => .error e
        | .ok ms => .ok ((key, v) :: ms)

end

mutual

/-- A `Value` whose object keys all re-parse to themselves under
`Key::from_str` (i.e. every key is in valid normalized form). -/
def keysReparse : Value → Bool
  | .null => true
  | .arr items => keysReparseList items
  | .bool _ => true
  | .num _ => true
  | .obj members => keysReparseObj members
  | .str _ => true

def keysReparseList : List Value → Bool
  | [] => true
  | v :: rest => keysReparse v && keysReparseList rest

def keysReparseObj : List (Key × Value) → Bool
  | [] => true
  | (k, v) :: rest =>
    (match key_from_str k.str with
     | .ok k2 => k2 == k
     | .error _ => false) && keysReparse v && keysReparseObj rest

end

mutual

/-- A JSON value containing some object key that fails `Key` validation. -/
def hasBadKey : JVal → Bool
  | .null => false
  | .arr items => hasBadKeyList items
  | .bool _ => false
  | .num _ => false
  | .obj members => hasBadKeyObj members
  | .str _ => false

def hasBadKeyList : List JVal → Bool
  | [] => false
  | j :: rest => hasBadKey j || hasBadKeyList rest

def hasBadKeyObj : List (String × JVal) → Bool
  | [] => false
  | (k, j) :: rest => !(key_from_str k).isOk || hasBadKey j || hasBadKeyObj rest

end

mutual

theorem from_to_json (v : Value) (h : keysReparse v = true) :
    from_json (to_json v) = Except.ok v := by
  cases v with
  | null => rfl
  | bool b => rfl
  | num n => rfl
  | str s => rfl
  | arr items =>
    have h2 : keysReparseList items = true := h
    simp only [to_json, from_json, from_to_jsonList items h2]
  | obj members =>
    have h2 : keysReparseObj members = true := h
    simp only [to_json, from_json, from_to_jsonObj members h2]

theorem from_to_jsonList (vs : List Value) (h : keysReparseList vs = true) :
    fromJsonList (toJsonList vs) = Except.ok vs := by
  cases vs with
  | nil => rfl
  | cons v rest =>
    simp only [keysReparseList, Bool.and_eq_true] at h
    simp only [toJsonList, fromJsonList, from_to_json v h.1,
      from_to_jsonList rest h.2]

theorem from_to_jsonObj (ms : List (Key × Value)) (h : keysReparseObj ms = true) :
    fromJsonObjMembers (toJsonObjMembers ms) = Except.ok ms := by
  cases ms with
  | nil => rfl
  | cons kv rest =>
    obtain ⟨k, v⟩ := kv
    simp only [keysReparseObj, Bool.and_eq_true] at h
    obtain ⟨⟨hk, hv⟩, hrest⟩ := h
    simp only [toJsonObjMembers, fromJsonObjMembers]
    cases hparse : key_from_str k.str with
    | error e => rw [hparse] at hk; simp at hk
    | ok k2 =>
      rw [hparse] at hk
      have hk2 : k2 = k := by
        have := hk
        simp only [beq_iff_eq] at this
        exact this
      subst hk2
      simp only [from_to_json v hv, from_to_jsonObj rest hrest]

end

mutual

theorem from_json_isOk (j : JVal) : (from_json j).isOk = !hasBadKey j := by
  cases j with
  | null => rfl
  | bool b => rfl
  | num n => rfl
  | str s => rfl
  | arr data =>
    have ih := fromJsonList_isOk data
    simp only [from_json, hasBadKey]
    cases h : fromJsonList data with
    | ok items =>
      rw [h] at ih
      simpa [Except.isOk, Except.toBool] using ih
    | error e =>
      rw [h] at ih
      simpa [Except.isOk, Except.toBool] using ih
  | obj data =>
    have ih := fromJsonObj_isOk data
    simp only [from_json, hasBadKey]
    cases h : fromJsonObjMembers data with
    | ok members =>
      rw [h] at ih
      simpa [Except.isOk, Except.toBool] using ih
    | error e =>
      rw [h] at ih
      simpa [Except.isOk, Except.toBool] using ih

theorem fromJsonList_isOk (js : List JVal) :
    (fromJsonList js).isOk = !hasBadKeyList js := by
  cases js with
  | nil => rfl
  | cons j rest =>
    have ihj := from_json_isOk j
    have ihr := fromJsonList_isOk rest
    simp only [fromJsonList, hasBadKeyList]
    cases h1 : from_json j with
    | error e =>
      rw [h1] at ihj
      have hb : hasBadKey j = true := by
        revert ihj; cases hasBadKey j <;> simp [Except.isOk, Except.toBool]
      simp [hb, Except.isOk, Except.toBool]
    | ok v =>
      rw [h1] at ihj
      have hb : hasBadKey j = false := by
        revert ihj; cases hasBadKey j <;> simp [Except.isOk, Except.toBool]
      cases h2 : fromJsonList rest with
      | error e =>
        rw [h2] at ihr
        have hb2 : hasBadKeyList rest = true := by
          revert ihr; cases hasBadKeyList rest <;> simp [Except.isOk, Except.toBool]
        simp [hb, hb2, Except.isOk, Except.toBool]
      | ok vs =>
        rw [h2] at ihr
        have hb2 : hasBadKeyList rest = false := by
          revert ihr; cases hasBadKeyList rest <;> simp [Except.isOk, Except.toBool]
        simp [hb, hb2, Except.isOk, Except.toBool]

theorem fromJsonObj_isOk (ms : List (String × JVal)) :
    (fromJsonObjMembers ms).isOk = !hasBadKeyObj ms := by
  cases ms with
  | nil => rfl
  | cons kj rest =>
    obtain ⟨k, j⟩ := kj
    have ihj := from_json_isOk j
    have ihr := fromJsonObj_isOk rest
    simp only [fromJsonObjMembers, hasBadKeyObj]
    cases h0 : key_from_str k with
    | error e =>
      simp [h0, Except.isOk, Except.toBool]
    | ok key =>
      simp only [h0, Except.isOk, Except.toBool]
      cases h1 : from_json j with
      | error e =>
        rw [h1] at ihj
        have hb : hasBadKey j = true := by
          revert ihj; cases hasBadKey j <;> simp [Except.isOk, Except.toBool]
        simp [hb, Except.isOk, Except.toBool]
      | ok v =>
        rw [h1] at ihj
        have hb : hasBadKey j = false := by
          revert ihj; cases hasBadKey j <;> simp [Except.isOk, Except.toBool]
        cases h2 : fromJsonObjMembers rest with
        | error e =>
          rw [h2] at ihr
          have hb2 : hasBadKeyObj rest = true := by
            revert ihr; cases hasBadKeyObj rest <;> simp [Except.isOk, Except.toBool]
          simp [hb, hb2, Except.isOk, Except.toBool]
        | ok ws =>
          rw [h2] at ihr
          have hb2 : hasBadKeyObj rest = false := by
            revert ihr; cases hasBadKeyObj rest <;> simp [Except.isOk, Except.toBool]
          simp [hb, hb2, Except.isOk, Except.toBool]

end

/-- C6 (amended): for every `Value` whose object keys are all in valid
normalized form (each key re-parses to itself under `Key::from_str`),
`from_json (to_json v) = Ok v`; and converting a generic JSON value to a
`Value` fails exactly when some object key fails `Key` validation. -/
theorem C6_value_json_roundtrip :
    (∀ v : Value, keysReparse v = true → from_json (to_json v) = Except.ok v) ∧
    (∀ j : JVal, ((from_json j).isOk = false ↔ hasBadKey j = true)) := by
  refine ⟨from_to_json, ?_⟩
  intro j
  rw [from_json_isOk j]
  cases hasBadKey j <;> simp

/-- Witness for C6: a one-member object with the valid key `"title"`
round-trips unchanged. -/
theorem C6_value_json_roundtrip_witness :
    keysReparse (Value.obj [(Key.fromRaw "title", Value.str "T")]) = true ∧
    from_json (to_json (Value.obj [(Key.fromRaw "title", Value.str "T")])) =
      Except.ok (Value.obj [(Key.fromRaw "title", Value.str "T")]) :=
  ⟨by rfl, C6_value_json_roundtrip.1 _ (by rfl)⟩

/-- Counterexample for C6 as stated: the key `"-abc"` IS produced by the
`Key` parser (from the input `"Abc"`, whose leading uppercase letter is
kebab-ized into a leading dash), yet a `Value` using that key does not
survive the round trip — `from_json` rejects `"-abc"` as starting with a
separator. -/
theorem C6_value_json_roundtrip_counterexample :
    key_from_str "Abc" = Except.ok (Key.fromRaw "-abc") ∧
    (from_json (to_json (Value.obj [(Key.fromRaw "-abc", Value.null)]))).isOk
      = false ∧
    from_json (to_json (Value.obj [(Key.fromRaw "-abc", Value.null)])) ≠
      Except.ok (Value.obj [(Key.fromRaw "-abc", Value.null)]) := by
  have hx : from_json (to_json (Value.obj [(Key.fromRaw "-abc", Value.null)]))
      = Except.error (ParseKeyError.cannotStart '-') := by rfl
  exact ⟨by rfl, by rw [hx]; rfl, fun h => Except.noConfusion (hx.symm.trans h)⟩

/-- A link.  Modelled from the spec: `doc/link.rs` is absent; link/URI
parsing is external and links are treated as opaque rendered values. -/
structure Link where
  href : String
deriving DecidableEq, Repr

/-- A resource identifier (`Identifier` in `src/doc/ident.rs`): a `(kind, id)`
pair plus non-identifying `meta`. -/
structure Identifier where
  id : String
  kind : Key
  meta : List (Key × Value)

/-- `Identifier::new` — empty meta. -/
def Identifier.new (kind : Key) (id : String) : Identifier :=
  { id := id, kind := kind, meta := [] }

/-- `impl PartialEq for Identifier` (`src/doc/ident.rs` lines 110-114):
equality uses only `id` and `kind`, never `meta`. -/
def Identifier.eqIdent (a b : Identifier) : Bool :=
  a.id == b.id && a.kind == b.kind

/-- Primary data cardinality (`Data<T>` in `src/doc/mod.rs` lines 143-151). -/
inductive Data (T : Type) where
  | collection (items : List T) : Data T
  | member (item : Option T) : Data T

/-- A relationship (`Relationship`).  Modelled from the spec:
`doc/relationship.rs` is absent; the spec gives
`{data: Option<Data<Identifier>>, links, meta}`, `data = None` meaning the
relationship is not represented in the payload. -/
structure Relationship where
  data : Option (Data Identifier)
  links : List (Key × Link)
  meta : List (Key × Value)

/-- A resource object (`Object`).  Modelled from the spec: `doc/object.rs` is
absent; the spec gives `{kind, id, attributes, relationships, links, meta}`
with identity (and equality/hash) on `(kind, id)` only, maps ordered. -/
structure Object where
  kind : Key
  id : String
  attributes : List (Key × Value)
  relationships : List (Key × Relationship)
  links : List (Key × Link)
  meta : List (Key × Value)

/-- `impl PartialEq<Object> for Identifier` (`src/doc/ident.rs` lines
116-120): compares `id` and `kind` only, ignoring meta and attributes. -/
def Identifier.eqObject (a : Identifier) (o : Object) : Bool :=
  a.id == o.id && a.kind == o.kind

/-- Identity comparison between two `Object`s.  Modelled from the spec:
`Object` shares `Identifier`'s equality semantics (kind+id only). -/
def Object.identEq (a b : Object) : Bool :=
  a.id == b.id && a.kind == b.kind

/-- Protocol info object (`JsonApi`).  Modelled from the spec:
`doc/specification.rs` is absent; only its default value matters here. -/
structure JsonApi where
  version : Option String := none
deriving DecidableEq, Repr

/-- An error object.  Modelled from the spec: `doc/error.rs` is absent;
error-object wire formatting is external, only existence matters here. -/
structure ErrorObject where
  detail : Option String := none
deriving DecidableEq, Repr

/-- `DocumentError` (`src/doc/mod.rs` lines 122-135). -/
structure DocumentError where
  errors : List ErrorObject
  jsonapi : JsonApi := {}
  links : List (Key × Link) := []
  meta : List (Key × Value) := []

/-- A compound document (`Document<T>` in `src/doc/mod.rs` lines 49-92). -/
inductive Document (T : Type) where
  | ok (data : Data T) (included : List Object) (jsonapi : JsonApi)
      (links : List (Key × Link)) (meta : List (Key × Value)) : Document T
  | err (error : DocumentError) : Document T

/-- `Document::is_ok` (`src/doc/mod.rs` lines 96-101). -/
def Document.is_ok : Document T → Bool
  | .ok _ _ _ _ _ => true
  | .err _ => false

/-- `Document::is_err` (`src/doc/mod.rs` lines 104-109).  NOTE: transcribed
exactly as written in the source — the match arms return the same values as
`is_ok` (`Ok => true`, `Err => false`). -/
def Document.is_err : Document T → Bool
  | .ok _ _ _ _ _ => true
  | .err _ => false

/-- C1: `is_ok` is true exactly on the `Ok` variant, but `is_err` is NOT true
exactly on the `Err` variant: on an `Err` document `is_err` returns `false`
(and on an `Ok` document it returns `true`) — `is_err` is an exact copy of
`is_ok`, contradicting its own documentation.  The theorem exhibits the
failing input and proves that `is_err` and `is_ok` agree on every
document. -/
theorem C1_is_err_bug :
    (Document.err (T := Identifier) { errors := [{ detail := some "boom" }] }).is_err
      = false ∧
    (Document.err (T := Identifier) { errors := [{ detail := some "boom" }] }).is_ok
      = false ∧
    ∀ (T : Type) (d : Document T), d.is_err = d.is_ok := by
  refine ⟨rfl, rfl, ?_⟩
  intro T d
  cases d <;> rfl

/-- `countSomeRels` — the relationship count computed by `DocGraph::object`
(`src/doc/de.rs` line 33): the number of relationship entries whose `data`
field is present. -/
def countSomeRels (rels : List (Key × Relationship)) : Nat :=
  rels.countP (fun kr => kr.2.data.isSome)

/-- The inflate cursor (`DocGraph` in `src/doc/de.rs` lines 13-19).  The
`included` reference it carries in Rust is environmental and is passed
separately to the functions that need it. -/
structure DocGraph where
  kind : Key
  id : Option String
  attributes : Option (List (Key × Value))
  relationships : Option (Nat × List (Key × Relationship))

/-- `DocGraph::id` (`src/doc/de.rs` lines 22-30): a stub cursor for a bare
identifier — no attributes, no relationships. -/
def DocGraph.ofId (ident : Identifier) : DocGraph :=
  { kind := ident.kind, id := some ident.id, attributes := none,
    relationships := none }

/-- `DocGraph::object` (`src/doc/de.rs` lines 32-41): a full cursor for a
resource object, with the data-present relationship count precomputed. -/
def DocGraph.ofObject (object : Object) : DocGraph :=
  let len := countSomeRels object.relationships
  { kind := object.kind, id := some object.id,
    attributes := some object.attributes,
    relationships := some (len, object.relationships) }

/-- `DocGraph::loopup` (`src/doc/de.rs` lines 54-59): find the first object
in `included` with the identifier's `(kind, id)` identity and recurse into it
as a full cursor; otherwise fall back to the identifier stub. -/
def DocGraph.loopup (ident : Identifier) (included : List Object) : DocGraph :=
  match included.find? (fun item => ident.eqObject item) with
  | some item => DocGraph.ofObject item
  | none => DocGraph.ofId ident

/-- The internal state of the map cursor (`DocData` in `src/doc/de.rs` lines
292-298): `Kind → Id → Attributes (iterating) → Relationships (iterating) →
Done`.  The iterator fields hold the remaining entries. -/
inductive DocData where
  | kind (key : Key) (id : Option String) (attr : Option (List (Key × Value)))
      (relations : Option (Nat × List (Key × Relationship))) : DocData
  | id (id : String) (attr : Option (List (Key × Value)))
      (relations : Option (Nat × List (Key × Relationship))) : DocData
  | attributes (value : Option Value) (attr : List (Key × Value))
      (relations : Option (Nat × List (Key × Relationship))) : DocData
  | relationships (value : Option Relationship) (len : Nat)
      (relations : List (Key × Relationship)) : DocData
  | done : DocData

/-- `impl From<DocGraph> for MapDocGraph` (`src/doc/de.rs` lines 283-290). -/
def docDataOfGraph (g : DocGraph) : DocData :=
  .kind g.kind g.id g.attributes g.relationships

/-- The map cursor produced for an `Object` (composition of
`DocGraph::object` and `MapDocGraph::from`). -/
def docDataOfObject (o : Object) : DocData :=
  docDataOfGraph (DocGraph.ofObject o)

def attrsLen : Option (List (Key × Value)) → Nat
  | none => 0
  | some l => l.length

def relCount : Option (Nat × List (Key × Relationship)) → Nat
  | none => 0
  | some (len, _) => len

/-- `MapDocGraph::len` (`src/doc/de.rs` lines 257-281): the count of
fields not yet consumed (type and id contribute while pending; attributes by
remaining iterator length; relationships by the maintained count). -/
def docDataLen : DocData → Nat
  | .kind _ _ attr relations => attrsLen attr + relCount relations + 2
  | .id _ attr relations => attrsLen attr + relCount relations + 1
  | .attributes _ attr relations => attr.length + relCount relations
  | .relationships _ len _ => len
  | .done => 0

/-- The relationship-skipping portion of `MapDocGraph::next_key_seed`
(`src/doc/de.rs` lines 337-351): skip entries whose `data` is `None`
(without decrementing the count), emit the key of the first entry whose
`data` is present (decrementing the count and remembering the pending
value), or transition to `Done` when exhausted. -/
def nextKeyRel (len : Nat) : List (Key × Relationship) → Option Key × DocData
  | [] => (none, .done)
  | (key, value) :: rest =>
    if value.data.isSome then
      (some key, .relationships (some value) (len - 1) rest)
    else
      nextKeyRel len rest

/-- `MapDocGraph::next_key_seed` (`src/doc/de.rs` lines 309-358): the next
field name and the state after producing it.  The `Kind` and `Id` states
emit the literal keys `"type"` and `"id"` and put the state back; the
`Attributes` state emits the next attribute key; empty attributes fall
through to relationships (or `Done`), mirroring the `loop`. -/
def nextKey : DocData → Option Key × DocData
  | .kind key idv attr relations => (some (Key.fromRaw "type"), .kind key idv attr relations)
  | .id idv attr relations => (some (Key.fromRaw "id"), .id idv attr relations)
  | .attributes _ ((key, value) :: rest) relations =>
      (some key, .attributes (some value) rest relations)
  | .attributes _ [] (some (len, rels)) => nextKeyRel len rels
  | .attributes _ [] none => (none, .done)
  | .relationships _ len rels => nextKeyRel len rels
  | .done => (none, .done)

/-- The state transition of `MapDocGraph::next_value_seed` (`src/doc/de.rs`
lines 360-428).  `none` models the error returns ("attribute value is
missing", "relationship value is missing", "premature done is missing");
the produced value itself (kind string, id string, attribute `Value`, or
recursively resolved relationship) is not needed for the consumption and
field-name claims. -/
def nextValueAdvance : DocData → Option DocData
  | .kind _ idv attr relations =>
    some (match idv, attr, relations with
      | some i, attr, relations => .id i attr relations
      | none, some attr, relations => .attributes none attr relations
      | none, none, some (len, rels) => .relationships none len rels
      | none, none, none => .done)
  | .id _ attr relations =>
    some (match attr, relations with
      | some attr, relations => .attributes none attr relations
      | none, some (len, rels) => .relationships none len rels
      | none, none => .done)
  | .attributes value attr relations =>
    match value with
    | some _ => some (.attributes none attr relations)
    | none => none
  | .relationships value len relations =>
    match value with
    | some _ => some (.relationships none len relations)
    | none => none
  | .done => none

/-- One key/value pull round of the serde map protocol: ask for the next
field name, and if one is produced, consume its value. -/
def pullRound (st : DocData) : Option (Key × DocData) :=
  match nextKey st with
  | (none, _) => none
  | (some key, st1) =>
    match nextValueAdvance st1 with
    | some st2 => some (key, st2)
    | none => none

/-- A consumer that performs `n` complete key/value pull rounds and then
stops (stopping early if the cursor reports no more fields). -/
def runPulls : Nat → DocData → DocData
  | 0, st => st
  | n + 1, st =>
    match pullRound st with
    | none => st
    | some ks => runPulls n ks.2

/-- The exact-consumption check of `visit_object` (`src/doc/de.rs` lines
233-249): after the consumer's pull sequence, decoding succeeds exactly when
the cursor's remaining field count is zero. -/
def visitObjectOk (o : Object) (n : Nat) : Bool :=
  docDataLen (runPulls n (docDataOfObject o)) == 0

/-- The number of fields an object cursor produces: type, id, every
attribute, every relationship whose data is present. -/
def totalFields (o : Object) : Nat :=
  2 + o.attributes.length + countSomeRels o.relationships

def relsListLen : Option (Nat × List (Key × Relationship)) → Nat
  | none => 0
  | some (_, rels) => rels.length

/-- Termination measure for iterating `pullRound`. -/
def docDataMeasure : DocData → Nat
  | .kind _ _ attr relations => 3 + attrsLen attr + relsListLen relations
  | .id _ attr relations => 2 + attrsLen attr + relsListLen relations
  | .attributes _ attr relations => 1 + attr.length + relsListLen relations
  | .relationships _ _ rels => 1 + rels.length
  | .done => 0

theorem nextKeyRel_some (len : Nat) (rels : List (Key × Relationship))
    (key : Key) (st : DocData) (h : nextKeyRel len rels = (some key, st)) :
    ∃ r rest, st = .relationships (some r) (len - 1) rest ∧
      rest.length < rels.length := by
  induction rels with
  | nil => simp [nextKeyRel] at h
  | cons kr rest ih =>
    obtain ⟨k, r⟩ := kr
    by_cases hd : r.data.isSome
    · simp only [nextKeyRel, hd, if_true, Prod.mk.injEq] at h
      exact ⟨r, rest, h.2.symm, by simp⟩
    · simp only [nextKeyRel, hd, if_false] at h
      obtain ⟨r2, rest2, hst, hlen⟩ := ih h
      exact ⟨r2, rest2, hst, Nat.lt_trans hlen (by simp)⟩

theorem pullRound_decreases (st : DocData) (ks : Key × DocData)
    (h : pullRound st = some ks) :
    docDataMeasure ks.2 < docDataMeasure st := by
  obtain ⟨key, st2⟩ := ks
  cases st with
  | kind k idv attr relations =>
    simp only [pullRound, nextKey, nextValueAdvance, Option.some.injEq,
      Prod.mk.injEq] at h
    cases idv with
    | some i =>
      simp only at h
      cases h.2
      simp only [docDataMeasure, attrsLen, relsListLen, List.length_cons]
      omega
    | none =>
      cases attr with
      | some a =>
        simp only at h
        cases h.2
        simp only [docDataMeasure, attrsLen, relsListLen, List.length_cons]
        omega
      | none =>
        cases relations with
        | some lr =>
          obtain ⟨len, rels⟩ := lr
          simp only at h
          cases h.2
          simp only [docDataMeasure, attrsLen, relsListLen, List.length_cons]
          omega
        | none =>
          simp only at h
          cases h.2
          simp only [docDataMeasure, attrsLen, relsListLen, List.length_cons]
          omega
  | id idv attr relations =>
    simp only [pullRound, nextKey, nextValueAdvance, Option.some.injEq,
      Prod.mk.injEq] at h
    cases attr with
    | some a =>
      simp only at h
      cases h.2
      simp only [docDataMeasure, attrsLen, relsListLen, List.length_cons]
      omega
    | none =>
      cases relations with
      | some lr =>
        obtain ⟨len, rels⟩ := lr
        simp only at h
        cases h.2
        simp only [docDataMeasure, attrsLen, relsListLen, List.length_cons]
        omega
      | none =>
        simp only at h
        cases h.2
        simp only [docDataMeasure, attrsLen, relsListLen, List.length_cons]
        omega
  | attributes v attr relations =>
    cases attr with
    | cons kv rest =>
      obtain ⟨k, av⟩ := kv
      simp only [pullRound, nextKey, nextValueAdvance, Option.some.injEq,
        Prod.mk.injEq] at h
      cases h.2
      simp only [docDataMeasure, attrsLen, relsListLen, List.length_cons]
      omega
    | nil =>
      cases relations with
      | none => simp [pullRound, nextKey] at h
      | some lr =>
        obtain ⟨len, rels⟩ := lr
        simp only [pullRound, nextKey] at h
        cases hnk : nextKeyRel len rels with
        | mk ko st1 =>
          rw [hnk] at h
          cases ko with
          | none => simp at h
          | some k2 =>
            obtain ⟨r, rest, hst1, hlt⟩ := nextKeyRel_some len rels k2 st1 hnk
            subst hst1
            simp only [nextValueAdvance, Option.some.injEq, Prod.mk.injEq] at h
            cases h.2
            simp only [docDataMeasure, attrsLen, relsListLen, List.length_cons]
            omega
  | relationships v len rels =>
    simp only [pullRound, nextKey] at h
    cases hnk : nextKeyRel len rels with
    | mk ko st1 =>
      rw [hnk] at h
      cases ko with
      | none => simp at h
      | some k2 =>
        obtain ⟨r, rest, hst1, hlt⟩ := nextKeyRel_some len rels k2 st1 hnk
        subst hst1
        simp only [nextValueAdvance, Option.some.injEq, Prod.mk.injEq] at h
        cases h.2
        simp only [docDataMeasure, attrsLen, relsListLen, List.length_cons]
        omega
  | done => simp [pullRound, nextKey] at h

/-- The complete trace of field names produced by successive pull rounds. -/
def keysTrace (st : DocData) : List Key :=
  match h : pullRound st with
  | none => []
  | some ks => ks.1 :: keysTrace ks.2
termination_by docDataMeasure st
decreasing_by exact pullRound_decreases st ks h

/-- Consistency of the maintained relationship count: it always equals the
number of data-present entries remaining in the iterator. -/
def relWf : Option (Nat × List (Key × Relationship)) → Prop
  | none => True
  | some (len, rels) => len = countSomeRels rels

/-- Invariant maintained by cursors built from an `Object`: the id is
present in the `Kind` state and the relationship count is consistent. -/
def docDataWf : DocData → Prop
  | .kind _ idv _ relations => idv.isSome ∧ relWf relations
  | .id _ _ relations => relWf relations
  | .attributes _ _ relations => relWf relations
  | .relationships _ len rels => len = countSomeRels rels
  | .done => True

theorem countSomeRels_cons (kr : Key × Relationship)
    (rest : List (Key × Relationship)) :
    countSomeRels (kr :: rest) =
      countSomeRels rest + (if kr.2.data.isSome then 1 else 0) := by
  simp [countSomeRels, List.countP_cons]

theorem nextKeyRel_count (len : Nat) (rels : List (Key × Relationship))
    (h : len = countSomeRels rels) :
    (nextKeyRel len rels = (none, .done) ∧ len = 0) ∨
    (∃ k r rest, nextKeyRel len rels = (some k, .relationships (some r) (len - 1) rest) ∧
      countSomeRels rest = len - 1 ∧ 1 ≤ len) := by
  induction rels generalizing len with
  | nil =>
    left
    refine ⟨rfl, ?_⟩
    simpa [countSomeRels] using h
  | cons kr rest ih =>
    obtain ⟨k, r⟩ := kr
    rw [countSomeRels_cons] at h
    by_cases hd : r.data.isSome
    · right
      refine ⟨k, r, rest, ?_, ?_, ?_⟩
      · simp [nextKeyRel, hd]
      · simp only [hd, if_true] at h
        omega
      · simp only [hd, if_true] at h
        omega
    · simp only [hd, if_false, Nat.add_zero] at h
      have := ih len h
      simpa [nextKeyRel, hd] using this

theorem pullRound_none_len (st : DocData) (hwf : docDataWf st)
    (h : pullRound st = none) : docDataLen st = 0 := by
  cases st with
  | kind k idv attr relations =>
    simp [pullRound, nextKey, nextValueAdvance] at h
  | id idv attr relations =>
    simp [pullRound, nextKey, nextValueAdvance] at h
  | attributes v attr relations =>
    cases attr with
    | cons kv rest =>
      obtain ⟨k2, av⟩ := kv
      simp [pullRound, nextKey, nextValueAdvance] at h
    | nil =>
      cases relations with
      | none => simp [docDataLen, relCount]
      | some lr =>
        obtain ⟨len, rels⟩ := lr
        have hwf2 : len = countSomeRels rels := hwf
        rcases nextKeyRel_count len rels hwf2 with ⟨hnk, hz⟩ | ⟨k2, r, rest, hnk, _, _⟩
        · simp [docDataLen, relCount, hz]
        · simp [pullRound, nextKey, hnk, nextValueAdvance] at h
  | relationships v len rels =>
    have hwf2 : len = countSomeRels rels := hwf
    rcases nextKeyRel_count len rels hwf2 with ⟨hnk, hz⟩ | ⟨k2, r, rest, hnk, _, _⟩
    · simp [docDataLen, hz]
    · simp [pullRound, nextKey, hnk, nextValueAdvance] at h
  | done => rfl

theorem pullRound_some_len (st : DocData) (ks : Key × DocData)
    (hwf : docDataWf st) (h : pullRound st = some ks) :
    docDataWf ks.2 ∧ docDataLen ks.2 + 1 = docDataLen st := by
  obtain ⟨key, st2⟩ := ks
  cases st with
  | kind k idv attr relations =>
    obtain ⟨hid, hrel⟩ := hwf
    cases idv with
    | none => simp at hid
    | some i =>
      simp only [pullRound, nextKey, nextValueAdvance, Option.some.injEq,
        Prod.mk.injEq] at h
      cases h.2
      exact ⟨hrel, by simp only [docDataLen, attrsLen, relCount, List.length_cons]; try omega⟩
  | id idv attr relations =>
    have hrel : relWf relations := hwf
    simp only [pullRound, nextKey, nextValueAdvance, Option.some.injEq,
      Prod.mk.injEq] at h
    cases attr with
    | some a =>
      simp only at h
      cases h.2
      exact ⟨hrel, by simp only [docDataLen, attrsLen, relCount, List.length_cons]; try omega⟩
    | none =>
      cases relations with
      | some lr =>
        obtain ⟨len, rels⟩ := lr
        simp only at h
        cases h.2
        exact ⟨hrel, by simp [docDataLen, attrsLen, relCount]⟩
      | none =>
        simp only at h
        cases h.2
        exact ⟨trivial, by simp [docDataLen, attrsLen, relCount]⟩
  | attributes v attr relations =>
    have hrel : relWf relations := hwf
    cases attr with
    | cons kv rest =>
      obtain ⟨k2, av⟩ := kv
      simp only [pullRound, nextKey, nextValueAdvance, Option.some.injEq,
        Prod.mk.injEq] at h
      cases h.2
      exact ⟨hrel, by simp only [docDataLen, attrsLen, relCount, List.length_cons]; try omega⟩
    | nil =>
      cases relations with
      | none => simp [pullRound, nextKey] at h
      | some lr =>
        obtain ⟨len, rels⟩ := lr
        have hwf2 : len = countSomeRels rels := hrel
        rcases nextKeyRel_count len rels hwf2 with ⟨hnk, hz⟩ | ⟨k2, r, rest, hnk, hcount, hpos⟩
        · simp [pullRound, nextKey, hnk] at h
        · simp only [pullRound, nextKey, hnk, nextValueAdvance,
            Option.some.injEq, Prod.mk.injEq] at h
          cases h.2
          refine ⟨hcount.symm, ?_⟩
          simp only [docDataLen, attrsLen, relCount, List.length_nil]
          omega
  | relationships v len rels =>
    have hwf2 : len = countSomeRels rels := hwf
    rcases nextKeyRel_count len rels hwf2 with ⟨hnk, hz⟩ | ⟨k2, r, rest, hnk, hcount, hpos⟩
    · simp [pullRound, nextKey, hnk] at h
    · simp only [pullRound, nextKey, hnk, nextValueAdvance,
        Option.some.injEq, Prod.mk.injEq] at h
      cases h.2
      refine ⟨hcount.symm, ?_⟩
      simp only [docDataLen]
      omega
  | done => simp [pullRound, nextKey] at h

theorem runPulls_len (n : Nat) (st : DocData) (hwf : docDataWf st) :
    docDataLen (runPulls n st) = docDataLen st - n := by
  induction n generalizing st with
  | zero => simp [runPulls]
  | succ m ih =>
    simp only [runPulls]
    cases hp : pullRound st with
    | none =>
      have h0 := pullRound_none_len st hwf hp
      dsimp only
      omega
    | some ks =>
      obtain ⟨hwf2, hlen⟩ := pullRound_some_len st ks hwf hp
      rw [ih ks.2 hwf2]
      omega

theorem docDataOfObject_wf (o : Object) : docDataWf (docDataOfObject o) := by
  exact ⟨rfl, rfl⟩

theorem docDataOfObject_len (o : Object) :
    docDataLen (docDataOfObject o) = totalFields o := by
  simp only [docDataOfObject, docDataOfGraph, DocGraph.ofObject, docDataLen,
    attrsLen, relCount, totalFields]
  omega

/-- C2: for a cursor built from an `Object` and a consumer that performs `n`
complete key/value pull rounds, the exact-consumption check of
`visit_object` succeeds if and only if all produced fields (type, id, every
attribute, every data-present relationship) were consumed: fewer pulls leave
a positive remaining count and the decode errors; pulling exactly all
produced fields succeeds. -/
theorem C2_exact_consumption (o : Object) (n : Nat) :
    visitObjectOk o n = true ↔ totalFields o ≤ n := by
  unfold visitObjectOk
  rw [runPulls_len n _ (docDataOfObject_wf o), docDataOfObject_len o]
  simp [Nat.sub_eq_zero_iff_le]

/-- The data-present relationship keys, in map order. -/
def someRelKeys (rels : List (Key × Relationship)) : List Key :=
  (rels.filter (fun kr => kr.2.data.isSome)).map Prod.fst

def relTraceKeys : Option (Nat × List (Key × Relationship)) → List Key
  | none => []
  | some (_, rels) => someRelKeys rels

theorem keysTrace_none {st : DocData} (h : pullRound st = none) :
    keysTrace st = [] := by
  rw [keysTrace.eq_def]
  split
  · rfl
  · rename_i ks2 hks2
    rw [h] at hks2
    exact Option.noConfusion hks2

theorem keysTrace_some {st : DocData} {ks : Key × DocData}
    (h : pullRound st = some ks) : keysTrace st = ks.1 :: keysTrace ks.2 := by
  rw [keysTrace.eq_def]
  split
  · rename_i hnone
    rw [h] at hnone
    exact Option.noConfusion hnone
  · rename_i ks2 hks2
    rw [h] at hks2
    cases hks2
    rfl

theorem keysTrace_congr (s t : DocData) (h : pullRound s = pullRound t) :
    keysTrace s = keysTrace t := by
  cases hp : pullRound t with
  | none => rw [keysTrace_none (h.trans hp), keysTrace_none hp]
  | some ks => rw [keysTrace_some (h.trans hp), keysTrace_some hp]

theorem keysTrace_relationships (rels : List (Key × Relationship)) :
    ∀ (v : Option Relationship) (len : Nat),
      keysTrace (.relationships v len rels) = someRelKeys rels := by
  induction rels with
  | nil =>
    intro v len
    rw [keysTrace_none (by simp [pullRound, nextKey, nextKeyRel])]
    simp [someRelKeys]
  | cons kr rest ih =>
    intro v len
    obtain ⟨k, r⟩ := kr
    by_cases hd : r.data.isSome
    · have hpr : pullRound (DocData.relationships v len ((k, r) :: rest)) =
          some (k, DocData.relationships none (len - 1) rest) := by
        simp [pullRound, nextKey, nextKeyRel, hd, nextValueAdvance]
      rw [keysTrace_some hpr, ih]
      simp [someRelKeys, List.filter_cons, hd]
    · have hpe : pullRound (DocData.relationships v len ((k, r) :: rest)) =
          pullRound (DocData.relationships v len rest) := by
        simp [pullRound, nextKey, nextKeyRel, hd]
      rw [keysTrace_congr _ _ hpe, ih]
      simp [someRelKeys, List.filter_cons, hd]

theorem keysTrace_attributes (attrs : List (Key × Value)) :
    ∀ (v : Option Value) (relations : Option (Nat × List (Key × Relationship))),
      keysTrace (.attributes v attrs relations) =
        attrs.map Prod.fst ++ relTraceKeys relations := by
  induction attrs with
  | nil =>
    intro v relations
    cases relations with
    | none =>
      rw [keysTrace_none (by simp [pullRound, nextKey])]
      simp [relTraceKeys]
    | some lr =>
      obtain ⟨len, rels⟩ := lr
      have hpe : pullRound (DocData.attributes v [] (some (len, rels))) =
          pullRound (DocData.relationships none len rels) := by
        simp [pullRound, nextKey]
      rw [keysTrace_congr _ _ hpe, keysTrace_relationships]
      simp [relTraceKeys]
  | cons kv rest ih =>
    intro v relations
    obtain ⟨k, av⟩ := kv
    have hpr : pullRound (DocData.attributes v ((k, av) :: rest) relations) =
        some (k, DocData.attributes none rest relations) := by
      simp [pullRound, nextKey, nextValueAdvance]
    rw [keysTrace_some hpr, ih]
    simp

/-- C3: for a cursor built from an `Object`, successive next-field pulls
produce exactly `"type"`, then `"id"`, then each attribute key in map order,
then each relationship key whose `data` is present in map order, and nothing
more; relationship entries whose `data` is `None` are never emitted. -/
theorem C3_field_name_sequence (o : Object) :
    keysTrace (docDataOfObject o) =
      Key.fromRaw "type" :: Key.fromRaw "id" ::
        (o.attributes.map Prod.fst ++
          (o.relationships.filter (fun kr => kr.2.data.isSome)).map Prod.fst) := by
  have h1 : pullRound (docDataOfObject o) =
      some (Key.fromRaw "type",
        DocData.id o.id (some o.attributes)
          (some (countSomeRels o.relationships, o.relationships))) := by
    simp [docDataOfObject, docDataOfGraph, DocGraph.ofObject, pullRound,
      nextKey, nextValueAdvance]
  have h2 : pullRound (DocData.id o.id (some o.attributes)
      (some (countSomeRels o.relationships, o.relationships))) =
      some (Key.fromRaw "id",
        DocData.attributes none o.attributes
          (some (countSomeRels o.relationships, o.relationships))) := by
    simp [pullRound, nextKey, nextValueAdvance]
  rw [keysTrace_some h1, keysTrace_some h2, keysTrace_attributes]
  simp [relTraceKeys, someRelKeys]

/-- C4: resolving a to-one relationship identifier against the included set
(`DocGraph::loopup`): if some object in `included` has the identifier's
`(kind, id)` identity, the engine recurses into the first such object as a
new full cursor; otherwise it produces a stub cursor exposing only the
`type` and `id` fields, with no attributes and no relationships.  Lookup is
by `(kind, id)` only — the identifier's meta is ignored. -/
theorem C4_relationship_lookup (ident : Identifier) (included : List Object) :
    (∀ o : Object, included.find? (fun item => ident.eqObject item) = some o →
      DocGraph.loopup ident included = DocGraph.ofObject o ∧
      ident.eqObject o = true) ∧
    (included.find? (fun item => ident.eqObject item) = none →
      DocGraph.loopup ident included = DocGraph.ofId ident ∧
      (DocGraph.ofId ident).attributes = none ∧
      (DocGraph.ofId ident).relationships = none ∧
      keysTrace (docDataOfGraph (DocGraph.ofId ident)) =
        [Key.fromRaw "type", Key.fromRaw "id"]) ∧
    (∀ j : Identifier, j.id = ident.id → j.kind = ident.kind →
      DocGraph.loopup j included = DocGraph.loopup ident included) := by
  refine ⟨?_, ?_, ?_⟩
  · intro o h
    unfold DocGraph.loopup
    rw [h]
    exact ⟨rfl, List.find?_some h⟩
  · intro h
    unfold DocGraph.loopup
    rw [h]
    refine ⟨rfl, rfl, rfl, ?_⟩
    have h1 : pullRound (docDataOfGraph (DocGraph.ofId ident)) =
        some (Key.fromRaw "type", DocData.id ident.id none none) := by
      simp [docDataOfGraph, DocGraph.ofId, pullRound, nextKey, nextValueAdvance]
    have h2 : pullRound (DocData.id ident.id none none) =
        some (Key.fromRaw "id", DocData.done) := by
      simp [pullRound, nextKey, nextValueAdvance]
    rw [keysTrace_some h1, keysTrace_some h2, @keysTrace_none DocData.done rfl]
  · intro j hid hkind
    unfold DocGraph.loopup
    have hfun : (fun item => Identifier.eqObject j item) =
        (fun item => Identifier.eqObject ident item) := by
      funext item
      simp [Identifier.eqObject, hid, hkind]
    rw [hfun]
    cases hfind : included.find? (fun item => Identifier.eqObject ident item) with
    | some o => rfl
    | none => simp [DocGraph.ofId, hid, hkind]

/-- Example object used by witnesses. -/
def exUserObj : Object :=
  { kind := Key.fromRaw "users", id := "9",
    attributes := [(Key.fromRaw "name", Value.str "A")],
    relationships := [], links := [], meta := [] }

/-- Witness for C4: with `included = [users/9]`, looking up `users/9` yields
the full object cursor and looking up `users/7` yields the stub cursor. -/
theorem C4_relationship_lookup_witness :
    DocGraph.loopup ⟨"9", Key.fromRaw "users", []⟩ [exUserObj] =
      DocGraph.ofObject exUserObj ∧
    DocGraph.loopup ⟨"7", Key.fromRaw "users", []⟩ [exUserObj] =
      DocGraph.ofId ⟨"7", Key.fromRaw "users", []⟩ := by
  constructor
  · exact ((C4_relationship_lookup ⟨"9", Key.fromRaw "users", []⟩
      [exUserObj]).1 exUserObj (by rfl)).1
  · exact ((C4_relationship_lookup ⟨"7", Key.fromRaw "users", []⟩
      [exUserObj]).2.1 (by rfl)).1

/-- A field path.  Modelled from the spec: `value/fields/path.rs` is absent;
a `Path` is an ordered sequence of `Key`s with structural equality. -/
abbrev Path := List Key

/-- `Path::join`.  Modelled from the spec: returns a new `Path` with the key
appended. -/
def Path.join (p : Path) (key : Key) : Path := p ++ [key]

/-- A parsed query.  Modelled from the spec: the `query` module is external
here; `fields` is a per-kind sparse-fieldset allow-list and `includePaths`
(the spec's `include`) is the set of relationship paths to expand. -/
structure Query where
  fields : List (Key × List String)
  includePaths : List Path

/-- Ordered-map lookup (`Map::get`).  Modelled from the spec: the
`value/collections` module is absent; lookup finds the entry with the equal
key. -/
def mapGet (m : List (Key × α)) (k : Key) : Option α :=
  (m.find? (fun kv => kv.1 == k)).map Prod.snd

/-- `Set<Object>::insert`.  Modelled from the spec and the documentation of
`Executor::include`: inserting an object whose `(kind, id)` identity is
already present is a no-op returning `false`; otherwise the object is
appended and `true` is returned. -/
def setInsert (s : List Object) (o : Object) : List Object × Bool :=
  if s.any (fun item => Object.identEq o item) then (s, false)
  else (s ++ [o], true)

/-- The deflate render context (`Executor` in `src/view/executor.rs` lines
22-27).  The mutable `&mut Set<Object>` handle is modelled by the current
contents of the set. -/
structure Executor (CtxT : Type) where
  context : CtxT
  incl : List Object
  path : Path
  query : Option Query

/-- `Executor::field` (`src/view/executor.rs` lines 71-75): true iff no
query was supplied, or the query declares no fieldset for `kind`, or that
fieldset contains `name`. -/
def Executor.field (e : Executor CtxT) (kind : Key) (name : String) : Bool :=
  match e.query with
  | none => true
  | some q =>
    match mapGet q.fields kind with
    | none => true
    | some f => f.contains name

/-- `Executor::fork` (`src/view/executor.rs` lines 78-87): the child context
keeps the same included-set handle and query, converts the context via
`FromContext` (modelled by the function argument), and extends the path with
the relationship key. -/
def Executor.fork (e : Executor CtxT) (fromContext : CtxT → CtxT2)
    (key : Key) : Executor CtxT2 :=
  { context := fromContext e.context, incl := e.incl,
    path := e.path.join key, query := e.query }

/-- `Executor::key_included` (`src/view/executor.rs` lines 118-120): false
with no query, else whether the query's include set contains
`path.join(key)`. -/
def Executor.key_included (e : Executor CtxT) (key : Key) : Bool :=
  match e.query with
  | none => false
  | some q => q.includePaths.contains (e.path.join key)

/-- `Executor::included` (`src/view/executor.rs` lines 122-124). -/
def Executor.included (e : Executor CtxT) : Bool :=
  match e.query with
  | none => false
  | some q => q.includePaths.contains e.path

/-- `Executor::include` (`src/view/executor.rs` lines 102-104): insert into
the shared included set, reporting whether the value was newly added. -/
def Executor.includeObj (e : Executor CtxT) (o : Object) :
    Executor CtxT × Bool :=
  let si := setInsert e.incl o
  ({ e with incl := si.1 }, si.2)

/-- The to-one relationship step of the deflate walk
(`expand_rel_data_impl!(@has_one ... { data ... included ... })`,
`src/resource.rs` lines 744-767): emit `data` unconditionally; only when
`key_included` matches fork into the relationship and insert the resolved
related object (when present) into the shared included set. -/
def hasOneRelStep (e : Executor CtxT) (fromContext : CtxT → CtxT2)
    (key : Key) (dataVal : Option Identifier) (includeVal : Option Object) :
    Option (Option Identifier) × List Object :=
  let data := some dataVal
  if e.key_included key then
    let child := e.fork fromContext key
    match includeVal with
    | some o => (data, ((child.includeObj o).1).incl)
    | none => (data, child.incl)
  else
    (data, e.incl)

/-- C7: the deflate executor's field test returns true (the field is
emitted) iff no query was supplied, or the query's fields map has no entry
for the kind, or the entry for the kind contains the field name; a fieldset
that exists and lacks the name makes the test false (the field is
omitted). -/
theorem C7_sparse_fieldset (CtxT : Type) (e : Executor CtxT) (kind : Key)
    (name : String) :
    e.field kind name = true ↔
      (e.query = none ∨
        ∃ q, e.query = some q ∧
          (mapGet q.fields kind = none ∨
            ∃ fs, mapGet q.fields kind = some fs ∧ fs.contains name = true)) := by
  unfold Executor.field
  cases hq : e.query with
  | none => simp
  | some q =>
    cases hm : mapGet q.fields kind with
    | none => simp [hm]
    | some fs => simp [hm]

/-- C8: forking into a relationship key produces a child executor whose path
is the parent path joined with the key, sharing the parent's included set
and query; `key_included` is true iff a query was supplied and its include
set contains that joined path; the related object is inserted into the
shared included set only under an include match; and re-inserting an
already-present identity is a no-op. -/
theorem C8_include_path_matching (CtxT CtxT2 : Type) (e : Executor CtxT)
    (fromContext : CtxT → CtxT2) (key : Key) (dataVal : Option Identifier)
    (includeVal : Option Object) :
    ((e.fork fromContext key).path = e.path.join key ∧
      (e.fork fromContext key).incl = e.incl ∧
      (e.fork fromContext key).query = e.query) ∧
    (e.key_included key = true ↔
      ∃ q, e.query = some q ∧
        q.includePaths.contains (e.path.join key) = true) ∧
    (e.key_included key = false →
      (hasOneRelStep e fromContext key dataVal includeVal).2 = e.incl) ∧
    (∀ o : Object, e.key_included key = true → includeVal = some o →
      (hasOneRelStep e fromContext key dataVal includeVal).2 =
        (setInsert e.incl o).1) ∧
    (∀ (s : List Object) (o : Object),
      s.any (fun item => Object.identEq o item) = true →
      (setInsert s o).1 = s) := by
  refine ⟨⟨rfl, rfl, rfl⟩, ?_, ?_, ?_, ?_⟩
  · unfold Executor.key_included
    cases hq : e.query with
    | none => simp
    | some q => simp
  · intro h
    unfold hasOneRelStep
    rw [h]
    simp
  · intro o hinc hval
    unfold hasOneRelStep
    rw [hinc, hval]
    simp [Executor.includeObj, Executor.fork]
  · intro s o h
    simp [setInsert, h]

/-- Example query and executors used by the C8 witness. -/
def exQuery : Query :=
  { fields := [], includePaths := [[Key.fromRaw "author"]] }

def exExec : Executor Unit :=
  { context := (), incl := [], path := [], query := some exQuery }

def exExecNoQuery : Executor Unit :=
  { context := (), incl := [], path := [], query := none }

/-- Witness for C8: with no query the related object is not inserted; with
`include = {author}` at the root it is; re-inserting a present identity is a
no-op. -/
theorem C8_include_path_matching_witness :
    (hasOneRelStep exExecNoQuery (fun c => c) (Key.fromRaw "author") none
      (some exUserObj)).2 = exExecNoQuery.incl ∧
    (hasOneRelStep exExec (fun c => c) (Key.fromRaw "author") none
      (some exUserObj)).2 = (setInsert exExec.incl exUserObj).1 ∧
    (setInsert [exUserObj] exUserObj).1 = [exUserObj] := by
  refine ⟨?_, ?_, ?_⟩
  · exact (C8_include_path_matching Unit Unit exExecNoQuery (fun c => c)
      (Key.fromRaw "author") none (some exUserObj)).2.2.1 (by rfl)
  · exact (C8_include_path_matching Unit Unit exExec (fun c => c)
      (Key.fromRaw "author") none (some exUserObj)).2.2.2.1 exUserObj
      (by rfl) rfl
  · exact (C8_include_path_matching Unit Unit exExec (fun c => c)
      (Key.fromRaw "author") none (some exUserObj)).2.2.2.2 [exUserObj]
      exUserObj (by rfl)

/-- `impl Resolver<Object> for &T` (`src/resource.rs` lines 358-383): render
the resource as an object, move the rendered object's links and meta maps to
the document's top level, and place the stripped object (with the
accumulated included set) as the document's primary member data. -/
def resolveObjectSingle (obj : Object) (incl : List Object) : Document Object :=
  let links := obj.links
  let meta := obj.meta
  let stripped : Object := { obj with links := [], meta := [] }
  Document.ok (Data.member (some stripped)) incl {} links meta

/-- C9: when a single resource resolves to a `Document<Object>`, the
rendered object's links and meta become the document's top-level links and
meta; the object stored in the primary data has empty links and meta; kind,
id, attributes and relationships are carried unchanged, and the document
keeps the accumulated included set. -/
theorem C9_links_meta_promoted (obj : Object) (incl : List Object) :
    ∃ stripped : Object,
      resolveObjectSingle obj incl =
        Document.ok (Data.member (some stripped)) incl {} obj.links obj.meta ∧
      stripped.links = [] ∧ stripped.meta = [] ∧
      stripped.kind = obj.kind ∧ stripped.id = obj.id ∧
      stripped.attributes = obj.attributes ∧
      stripped.relationships = obj.relationships :=
  ⟨{ obj with links := [], meta := [] }, rfl, rfl, rfl, rfl, rfl, rfl, rfl⟩

/-- `impl Resolver<Identifier> for Identifier` (`src/doc/ident.rs` lines
122-136): take the identifier's meta for the document's top level, and wrap
the identifier (with its meta emptied) as the member primary data; included,
links and jsonapi are defaults.  The Rust implementation returns
`Ok(Document::Ok { .. })` unconditionally. -/
def Identifier.resolveDoc (ident : Identifier) : Document Identifier :=
  let meta := ident.meta
  Document.ok (Data.member (some { ident with meta := [] })) [] {} [] meta

/-- C10: resolving a single `Identifier` always yields `Document::Ok` whose
top-level meta is the identifier's original meta, whose primary data is
`Member(Some(identifier))` with the contained identifier's meta emptied, and
whose included set and links are empty. -/
theorem C10_identifier_resolution (ident : Identifier) :
    ident.resolveDoc.is_ok = true ∧
    ∃ inner : Identifier,
      ident.resolveDoc =
        Document.ok (Data.member (some inner)) [] {} [] ident.meta ∧
      inner.id = ident.id ∧ inner.kind = ident.kind ∧ inner.meta = [] :=
  ⟨rfl, ⟨{ ident with meta := [] }, rfl, rfl, rfl, rfl⟩⟩

end JsonApi
